import Mathlib

/-!
Verification of the report-extraction pipeline of `backend/app/services/gemini_service.py`
(`parse_analysis_result`, `extract_section`, `extract_sections_from_content`) and of the
report-type dispatch of `analyze_diagram`.

Python strings are modelled as `List Char` (the inputs of interest are ASCII);
Python dicts (which preserve insertion order and overwrite values in place) are
modelled as ordered association lists with the insertion operation `dinsert`.
-/

namespace PRR

/-! ### Python string primitives (ASCII fragment) -/

/-- Python `str.isspace` character class, i.e. the regex class `\s`. -/
def pyWS (c : Char) : Bool :=
  c = ' ' || c = '\t' || c = '\n' || c = '\r' || c = '\x0b' || c = '\x0c'

/-- Python `str.strip()`: drop leading and trailing whitespace. -/
def pyStrip (l : List Char) : List Char :=
  ((l.dropWhile pyWS).reverse.dropWhile pyWS).reverse

def isUpperAscii (c : Char) : Bool := decide ('A' ≤ c) && decide (c ≤ 'Z')

def isLowerAscii (c : Char) : Bool := decide ('a' ≤ c) && decide (c ≤ 'z')

def isDigitAscii (c : Char) : Bool := decide ('0' ≤ c) && decide (c ≤ '9')

def isCasedAscii (c : Char) : Bool := isUpperAscii c || isLowerAscii c

/-- Python `str.isupper()`: at least one cased character and no lowercase one. -/
def pyIsUpper (l : List Char) : Bool :=
  l.any isCasedAscii && !(l.any isLowerAscii)

/-- Python `text.split('\n')`: always returns at least one piece; pieces contain no `'\n'`. -/
def splitLinesL : List Char → List (List Char)
  | [] => [[]]
  | c :: rest =>
    if c = '\n' then [] :: splitLinesL rest
    else
      match splitLinesL rest with
      | [] => [[c]]
      | l :: ls => (c :: l) :: ls

/-- Python `'\n'.join(lines)`. -/
def joinLinesL : List (List Char) → List Char
  | [] => []
  | [l] => l
  | l :: ls => l ++ '\n' :: joinLinesL ls

/-- Does the head of the list exist and satisfy `p`? -/
def headSat (p : Char → Bool) (l : List Char) : Bool :=
  match l.head? with
  | some c => p c
  | none => false

def headIs (l : List Char) (c : Char) : Bool :=
  headSat (fun d => d = c) l

/-! ### The heading classifier of `parse_analysis_result` (source lines 683-699)

The combined regex `'|'.join(heading_patterns)` is used with `.match`, i.e. it must
match at the start of the line; each alternative is modelled as a boolean predicate. -/

/-- Regex `^#+\s+` (markdown heading marker): a leading `#`-run followed by
whitespace. -/
def pat1 (l : List Char) : Bool :=
  headIs l '#' && headSat pyWS (l.dropWhile (fun c => c = '#'))

/-- Regex `^[A-Z][A-Z\s]+:` (ALL-CAPS label line).  Since `':'` is not in the class
`[A-Z\s]`, greedy matching with backtracking succeeds exactly when the maximal run of
class characters after the first capital is non-empty and is followed by `':'`. -/
def pat2 (l : List Char) : Bool :=
  match l with
  | c :: rest =>
    isUpperAscii c &&
      (let run := rest.takeWhile (fun d => isUpperAscii d || pyWS d)
       decide (1 ≤ run.length) && headIs (rest.drop run.length) ':')
  | [] => false

/-- Regex `^\d+\.\s+[A-Z]` (numbered heading). -/
def pat3 (l : List Char) : Bool :=
  let ds := l.takeWhile isDigitAscii
  let r1 := l.drop ds.length
  decide (1 ≤ ds.length) && headIs r1 '.' &&
    (let r2 := r1.drop 1
     let ws := r2.takeWhile pyWS
     decide (1 ≤ ws.length) &&
       (match r2.drop ws.length with
        | d :: _ => isUpperAscii d
        | [] => false))

/-- The fixed vocabulary of the fourth alternative (case-sensitive, at line start). -/
def headingKeywords : List (List Char) :=
  ["ARCHITECTURE", "COMPONENTS", "RELIABILITY", "SCALABILITY", "SECURITY",
   "OBSERVABILITY", "PERFORMANCE", "OPERATIONAL", "RECOMMENDATIONS", "DEPENDENCY",
   "STEADY STATE", "HYPOTHESIS", "EXPERIMENT", "RUMSFELD", "TEST CASE",
   "BLAST RADIUS", "COVERAGE", "EXECUTIVE SUMMARY", "APPLICATION OVERVIEW",
   "REQUIREMENTS", "RISK", "INCIDENT", "ROADMAP"].map String.data

/-- Regex `^(ARCHITECTURE|COMPONENTS|...)`. -/
def pat4 (l : List Char) : Bool :=
  headingKeywords.any (fun kw => kw.isPrefixOf l)

def headingRegexMatch (l : List Char) : Bool :=
  pat1 l || pat2 l || pat3 l || pat4 l

/-- Source line 699: `heading_regex.match(line) or (line.strip().isupper() and len(line.strip()) > 3)`. -/
def isHeadingL (l : List Char) : Bool :=
  headingRegexMatch l || (pyIsUpper (pyStrip l) && decide (3 < (pyStrip l).length))

/-! ### Heading-name normalization (source lines 706-712) -/

/-- `re.sub(r'^#+\s+', '', s)`: the anchored pattern removes the leading `#`-run and the
following (maximal) whitespace run, when present. -/
def stripMarkdown (l : List Char) : List Char :=
  if headIs l '#' && headSat pyWS (l.dropWhile (fun c => c = '#')) then
    (l.dropWhile (fun c => c = '#')).dropWhile pyWS
  else l

/-- `re.sub(r':$', '', s)`: remove one trailing colon. -/
def stripTrailingColon (l : List Char) : List Char :=
  if l.getLast? = some ':' then l.dropLast else l

/-- `s.replace(' ', '_')`: every individual space becomes an underscore. -/
def spacesToUnderscores (l : List Char) : List Char :=
  l.map (fun c => if c = ' ' then '_' else c)

/-- Source lines 706-712: `line.strip().lower()`, strip markdown markers, strip a
trailing colon, replace spaces by underscores. -/
def sectionNameL (line : List Char) : List Char :=
  spacesToUnderscores (stripTrailingColon (stripMarkdown ((pyStrip line).map Char.toLower)))

/-! ### The line segmenter (source lines 677-727) -/

abbrev Sections := List (List Char × List Char)

/-- Python `d[k] = v` on an insertion-ordered dict: overwrite in place if the key is
present, else append. -/
def dinsert (m : Sections) (k v : List Char) : Sections :=
  if m.any (fun p => p.1 = k) then
    m.map (fun p => if p.1 = k then (k, v) else p)
  else m ++ [(k, v)]

/-- The mutable state of the segmentation loop.  `flushed` is a history field recording
every `sections[current_section] = '\n'.join(current_content)` assignment in order; it
does not influence `secs`, `cur` or `buf`. -/
structure SegState where
  secs : Sections
  cur : List Char
  buf : List (List Char)
  flushed : Sections

def initState : SegState := ⟨[], "overview".data, [], []⟩

/-- Source lines 700-703 and 721-723: flush the accumulated body lines into the dict. -/
def flushSt (st : SegState) : SegState :=
  if st.buf.isEmpty then st
  else
    { st with
      secs := dinsert st.secs st.cur (joinLinesL st.buf)
      flushed := st.flushed ++ [(st.cur, joinLinesL st.buf)]
      buf := [] }

/-- Source lines 697-719: one iteration of the loop over input lines. -/
def segStep (st : SegState) (line : List Char) : SegState :=
  if isHeadingL line then
    let st1 := flushSt st
    let nm0 := sectionNameL line
    let nm := if nm0.isEmpty then "section_".data ++ (toString st1.secs.length).data else nm0
    { st1 with cur := nm }
  else { st with buf := st.buf ++ [line] }

def segFold (lines : List (List Char)) : SegState :=
  lines.foldl segStep initState

/-- The sections dict after the loop and the final flush (source lines 696-723). -/
def segmentLines (lines : List (List Char)) : Sections :=
  (flushSt (segFold lines)).secs

/-- Source lines 696-727: segmentation of the full text, with the `full_text`
substitution when no section was produced (lines 725-727). -/
def lineSegmentSections (text : String) : Sections :=
  let s := segmentLines (splitLinesL text.data)
  if s.isEmpty then [("full_text".data, text.data)] else s

/-! ### `extract_sections_from_content` (source lines 825-882)

For each keyword `kw` of the combined vocabulary, the code scans the text with
`re.compile(f"({kw}:?)[^\n]*\n", re.IGNORECASE).finditer`.  Since `':'` and the class
`[^\n]` cannot consume a newline, the pattern matches at position `i` exactly when the
keyword matches case-insensitively at `i` and some `'\n'` occurs at or after position
`i + |kw|`; the match then ends just after the first such newline. -/

/-- Where (if anywhere) the regex `({kw}:?)[^\n]*\n` matches at position `i` of `cs`:
returns the end position of the match. -/
def kwMatchEnd (kw cs : List Char) (i : Nat) : Option Nat :=
  let rest := cs.drop i
  let k := kw.length
  if (rest.take k).map Char.toLower = kw.map Char.toLower ∧ decide (k ≤ rest.length)
      ∧ (rest.drop k).contains '\n' then
    some (i + k + (rest.drop k).findIdx (fun c => c = '\n') + 1)
  else none

/-- `pattern.search(text, i)`: the leftmost match at a position `≥ i`, as
(start, end).  Fuel-driven scan over the candidate start positions. -/
def searchKwAux (kw cs : List Char) : Nat → Nat → Option (Nat × Nat)
  | 0, _ => none
  | fuel + 1, i =>
    match kwMatchEnd kw cs i with
    | some e => some (i, e)
    | none => if i < cs.length then searchKwAux kw cs fuel (i + 1) else none

def searchKw (kw cs : List Char) (start : Nat) : Option (Nat × Nat) :=
  searchKwAux kw cs (cs.length + 1 - start) start

/-- `pattern.finditer(text)`: successive non-overlapping matches, each scan resuming
at the end of the previous match. -/
def finditerAux (kw cs : List Char) : Nat → Nat → List (Nat × Nat)
  | 0, _ => []
  | fuel + 1, i =>
    match searchKw kw cs i with
    | some (s, e) => (s, e) :: finditerAux kw cs fuel e
    | none => []

def finditer (kw cs : List Char) : List (Nat × Nat) :=
  finditerAux kw cs (cs.length + 1) 0

/-- Source lines 838-855: the union of the three report types' keyword vocabularies,
in declaration order. -/
def all_keywords : List (List Char) :=
  ["architecture", "components", "reliability", "scalability", "security",
   "observability", "performance", "operational", "recommendations",
   "dependency", "dependencies", "steady state", "hypothesis", "experiment",
   "rumsfeld", "test case", "blast radius", "coverage",
   "executive summary", "application overview", "reliability requirements",
   "risk assessment", "observability strategy", "destructive testing",
   "incident response", "reliability roadmap"].map String.data

/-- Source lines 867-873: the section end is the start of the nearest following match
of any keyword, or the end of the text. -/
def nextKeywordStart (cs : List Char) (start : Nat) : Nat :=
  all_keywords.foldl
    (fun acc kw =>
      match searchKw kw cs start with
      | some (s, _) => if s < acc then s else acc
      | none => acc)
    cs.length

/-- `text[s:e].strip()`. -/
def sliceStrip (cs : List Char) (s e : Nat) : List Char :=
  pyStrip ((cs.take e).drop s)

/-- `keyword.lower().replace(' ', '_')` (source line 879). -/
def keywordKey (kw : List Char) : List Char :=
  spacesToUnderscores (kw.map Char.toLower)

/-- Source lines 825-882: `extract_sections_from_content`. -/
def extract_sections_from_content (cs : List Char) : Sections :=
  all_keywords.foldl
    (fun secs kw =>
      (finditer kw cs).foldl
        (fun secs m => dinsert secs (keywordKey kw) (sliceStrip cs m.2 (nextKeywordStart cs m.2)))
        secs)
    []

/-! ### The schema mapper (source lines 644-660 and 730-823) -/

/-- Python's substring test `needle in hay`. -/
def isSubstr (needle hay : List Char) : Bool :=
  match hay with
  | [] => needle.isEmpty
  | _ :: t => needle.isPrefixOf hay || isSubstr needle t

/-- Source lines 644-660: `extract_section` — first synonym, in order, that occurs as a
substring of a discovered section name (Python `key in section_key`), first section in
dict order winning. -/
def extract_section (sections : Sections) (possible_keys : List (List Char)) : List Char :=
  ((possible_keys.findSome? fun key =>
      sections.findSome? fun p => if isSubstr key p.1 then some p.2 else none).getD [])

inductive AnalysisType
  | SYSTEM_ANALYSIS
  | DESTRUCTIVE_TESTING
  | PRR
deriving DecidableEq

/-- The canonical field list of each report type with its synonym lists, exactly as in
the three `structured_data = {...}` literals (source lines 735-744, 764-773, 793-802). -/
def canonSchema : AnalysisType → List (List Char × List (List Char))
  | .SYSTEM_ANALYSIS =>
    [("components", ["components", "architecture_component", "component_analysis", "architecture"]),
     ("reliability", ["reliability", "reliability_assessment", "spof", "single_points_of_failure"]),
     ("scalability", ["scalability", "scalability_analysis", "scaling"]),
     ("security", ["security", "security_evaluation", "authentication", "authorization"]),
     ("observability", ["observability", "observability_assessment", "monitoring", "logging"]),
     ("performance", ["performance", "performance_considerations", "latency", "throughput"]),
     ("operational_complexity", ["operational_complexity", "operations", "deployment", "maintenance"]),
     ("recommendations", ["recommendations", "improvements", "suggested", "enhancement"])].map
      (fun p => (p.1.data, p.2.map String.data))
  | .DESTRUCTIVE_TESTING =>
    [("dependency_analysis", ["dependency_analysis", "dependencies", "interconnections"]),
     ("steady_state_definition", ["steady_state_definition", "steady_state", "sli", "slo"]),
     ("hypothesis_generation", ["hypothesis_generation", "hypotheses", "hypothesis"]),
     ("experiment_design", ["experiment_design", "experiments", "test_cases", "chaos_testing"]),
     ("rumsfeld_matrix", ["rumsfeld_matrix", "known_unknowns", "unknown_unknowns"]),
     ("test_case_management", ["test_case_management", "test_cases", "litmus_chaos"]),
     ("blast_radius_analysis", ["blast_radius_analysis", "blast_radius", "impact_scope"]),
     ("coverage", ["coverage", "complete_coverage", "test_coverage"])].map
      (fun p => (p.1.data, p.2.map String.data))
  | .PRR =>
    [("executive_summary", ["executive_summary", "summary", "overview"]),
     ("application_overview", ["application_overview", "application", "overview"]),
     ("reliability_requirements", ["reliability_requirements", "requirements", "slo", "availability"]),
     ("risk_assessment", ["risk_assessment", "risks", "vulnerabilities", "spof"]),
     ("observability_strategy", ["observability_strategy", "observability", "monitoring", "logging"]),
     ("destructive_testing_results", ["destructive_testing_results", "testing_results", "chaos_testing"]),
     ("incident_response", ["incident_response", "response", "escalation", "runbook"]),
     ("reliability_roadmap", ["reliability_roadmap", "roadmap", "improvements"])].map
      (fun p => (p.1.data, p.2.map String.data))

def canonicalFields (t : AnalysisType) : List (List Char) :=
  (canonSchema t).map Prod.fst

/-- Source lines 730-733 (identically 759-762 and 788-791): the sections fed to the
mapper — `lineSegmentSections`, replaced by the keyword re-scan when it produced at
most one section.  (The replacement does not depend on the report type.) -/
def discoveredSections (text : String) : Sections :=
  let s := lineSegmentSections text
  if s.length ≤ 1 then extract_sections_from_content text.data else s

/-- A value of the result dict: every canonical field maps to a string, the reserved
key maps to the sections dict. -/
inductive PyVal
  | str : List Char → PyVal
  | dict : Sections → PyVal
deriving DecidableEq

abbrev PyDict := List (List Char × PyVal)

/-- The `structured_data = {...}` literal (source lines 735-744, 764-773, 793-802):
each canonical field paired with its `extract_section` result. -/
def structuredRaw (secs : Sections) (fields : List (List Char × List (List Char))) : Sections :=
  fields.map fun fp => (fp.1, extract_section secs fp.2)

/-- Source lines 747-757 (identically 776-786 and 805-815): when every value is empty
(`not any(structured_data.values())`), replace by the literal assigning the whole raw
text to the first canonical field and `""` to the rest. -/
def applyFallback (text : String) (fields : List (List Char × List (List Char)))
    (structured : Sections) : Sections :=
  if structured.all (fun p => p.2.isEmpty) then
    match fields with
    | [] => []
    | f0 :: rest => (f0.1, text.data) :: rest.map fun fp => (fp.1, ([] : List Char))
  else structured

/-- Source lines 662-823: `parse_analysis_result`.  For recognized report types the
three branches are the same computation over `canonSchema`; the
`structured_data["sections"] = sections` assignment appends the reserved entry. -/
def parse_analysis_result (text : String) (t : AnalysisType) : PyDict :=
  if text = "" then [("text".data, PyVal.str "No analysis data available".data)]
  else
    let secs := discoveredSections text
    let structured := applyFallback text (canonSchema t) (structuredRaw secs (canonSchema t))
    structured.map (fun p => (p.1, PyVal.str p.2)) ++ [("sections".data, PyVal.dict secs)]

/-! ### The report-type dispatch (source lines 576-584)

`AnalysisType` is a `str` enum; the tag reaches `analyze_diagram` as one of the three
string values (or, the caller contract being unchecked, anything else), is compared
against the three members, and any other value raises
`ValueError(f"Unsupported analysis type: ...")` before `parse_analysis_result` runs. -/

def parseAnalysisTag (tag : String) : Option AnalysisType :=
  if tag = "system_analysis" then some .SYSTEM_ANALYSIS
  else if tag = "destructive_testing" then some .DESTRUCTIVE_TESTING
  else if tag = "prr" then some .PRR
  else none

def recognizedTags : List String := ["system_analysis", "destructive_testing", "prr"]

/-- The extraction pipeline as seen from `analyze_diagram`, with the network/image
steps (which do not touch the tag or the parsing) elided: dispatch on the tag first
(lines 576-584), then parse (line 610). -/
def extractionPipeline (text : String) (tag : String) : Except String PyDict :=
  match parseAnalysisTag tag with
  | some t => .ok (parse_analysis_result text t)
  | none => .error ("Unsupported analysis type: " ++ tag)

/-! ### Derived measures and fixed test inputs used in the statements -/

def linesOf (text : String) : List (List Char) :=
  splitLinesL text.data

def numLines (text : String) : Nat :=
  (linesOf text).length

def headsCount (ls : List (List Char)) : Nat :=
  (ls.filter isHeadingL).length

/-- How many input lines the classifier marks as headings. -/
def numHeadingLines (text : String) : Nat :=
  headsCount (linesOf text)

/-- A body's line count: one more than its newline count. -/
def bodyLines (b : List Char) : Nat :=
  b.count '\n' + 1

def bodyLineSum (s : Sections) : Nat :=
  (s.map fun p => bodyLines p.2).sum

/-- Replaying a flush history through `dinsert` (what the sections dict is). -/
def dfold (fl : Sections) : Sections :=
  fl.foldl (fun m p => dinsert m p.1 p.2) []

/-- The state after the line loop and the final flush. -/
def segRun (text : String) : SegState :=
  flushSt (segFold (linesOf text))

/-- Input with two headings normalizing to the same name: the first body is lost. -/
def dupHeadingText : String := "HEADING\nbody one\nHEADING\nbody two"

/-- Input whose only occurrence of a vocabulary keyword is strictly inside a line. -/
def midlineText : String := "my architecture rocks\nrest here\n"

/-- The spec's keyword-anchoring example input. -/
def keywordExampleText : String :=
  "dependency: payment service calls auth service\nhypothesis: auth outage causes payment failure\n"

/-- Pure prose: no headings, no vocabulary keyword occurs. -/
def proseText : String := "The system works fine.\nEveryone is happy.\n"

/-- The spec's positive example input (two distinct headings, distinct bodies). -/
def specExampleText : String := "ARCHITECTURE:\nWe use a load balancer.\nSECURITY:\nTLS everywhere.\n"

/-- The heading line family `FOO<n spaces>BAR`. -/
def spacedHeading (n : Nat) : List Char :=
  "FOO".data ++ List.replicate n ' ' ++ "BAR".data

/-! ## Supporting lemmas -/

theorem splitLinesL_no_newline : ∀ cs : List Char, ∀ l ∈ splitLinesL cs, l.count '\n' = 0 := by
  intro cs
  induction cs with
  | nil =>
    intro l hl
    simp only [splitLinesL, List.mem_singleton] at hl
    simp [hl]
  | cons c rest ih =>
    intro l hl
    by_cases hc : c = '\n'
    · rw [splitLinesL, if_pos hc] at hl
      rcases List.mem_cons.1 hl with h | h
      · simp [h]
      · exact ih l h
    · rw [splitLinesL, if_neg hc] at hl
      rcases hsp : splitLinesL rest with _ | ⟨l₀, ls⟩
      · rw [hsp] at hl
        simp only [List.mem_singleton] at hl
        simp [hl, List.count_cons, hc]
      · rw [hsp] at hl
        rcases List.mem_cons.1 hl with h | h
        · have hl₀ : l₀.count '\n' = 0 := ih l₀ (by rw [hsp]; exact List.mem_cons_self _ _)
          subst h
          simp [List.count_cons, hc, hl₀]
        · exact ih l (by rw [hsp]; exact List.mem_cons_of_mem _ h)

theorem splitLinesL_length : ∀ cs : List Char, (splitLinesL cs).length = cs.count '\n' + 1 := by
  intro cs
  induction cs with
  | nil => rfl
  | cons c rest ih =>
    by_cases hc : c = '\n'
    · subst hc
      rw [splitLinesL, if_pos rfl]
      simp [ih, List.count_cons]
    · rw [splitLinesL, if_neg hc]
      have hcount : List.count '\n' (c :: rest) = List.count '\n' rest := by
        simp [List.count_cons, beq_iff_eq, Ne.symm hc]
      rcases hsp : splitLinesL rest with _ | ⟨l₀, ls⟩
      · exfalso
        rw [hsp] at ih
        simp at ih
      · rw [hcount, ← ih, hsp]
        rfl

theorem joinLinesL_count (ls : List (List Char)) (hne : ls ≠ [])
    (h : ∀ l ∈ ls, l.count '\n' = 0) : (joinLinesL ls).count '\n' + 1 = ls.length := by
  induction ls with
  | nil => exact absurd rfl hne
  | cons l rest ih =>
    rcases rest with _ | ⟨l', rest'⟩
    · show l.count '\n' + 1 = 1
      rw [h l (List.mem_cons_self _ _)]
    · have hrest : (joinLinesL (l' :: rest')).count '\n' + 1 = (l' :: rest').length :=
        ih (by simp) (fun x hx => h x (List.mem_cons_of_mem _ hx))
      show (l ++ ('\n' :: joinLinesL (l' :: rest'))).count '\n' + 1 = _
      rw [List.count_append, h l (List.mem_cons_self _ _), List.count_cons]
      simp only [beq_self_eq_true, if_true, List.length_cons] at hrest ⊢
      omega

/-- The final flush always leaves an empty buffer. -/
theorem flushSt_buf_nil (st : SegState) : (flushSt st).buf = [] := by
  unfold flushSt
  split
  · next h => exact List.isEmpty_iff.1 h
  · rfl

theorem flushSt_cur (st : SegState) : (flushSt st).cur = st.cur := by
  unfold flushSt
  split <;> rfl

theorem flushSt_secs_of_ne (st : SegState) (h : st.buf ≠ []) :
    (flushSt st).secs = dinsert st.secs st.cur (joinLinesL st.buf) := by
  unfold flushSt
  rw [if_neg (by simpa [List.isEmpty_iff] using h)]

theorem flushSt_flushed (st : SegState) :
    (flushSt st).flushed =
      if st.buf.isEmpty then st.flushed else st.flushed ++ [(st.cur, joinLinesL st.buf)] := by
  unfold flushSt
  split <;> simp_all

/-- A heading step keeps the flushed history of the flush and empties the buffer. -/
theorem segStep_heading_fields (st : SegState) (l : List Char) (hl : isHeadingL l = true) :
    (segStep st l).flushed = (flushSt st).flushed ∧ (segStep st l).buf = [] ∧
    (segStep st l).secs = (flushSt st).secs := by
  unfold segStep
  rw [if_pos hl]
  exact ⟨rfl, flushSt_buf_nil st, rfl⟩

theorem segStep_nonheading (st : SegState) (l : List Char) (hl : isHeadingL l = false) :
    segStep st l = { st with buf := st.buf ++ [l] } := by
  simp [segStep, hl]

theorem bodyLineSum_append (s₁ s₂ : Sections) :
    bodyLineSum (s₁ ++ s₂) = bodyLineSum s₁ + bodyLineSum s₂ := by
  simp [bodyLineSum]

/-- Flushing adds exactly the buffered line count to the flushed-body line total. -/
theorem bodyLineSum_flushSt (st : SegState) (h : ∀ l ∈ st.buf, l.count '\n' = 0) :
    bodyLineSum (flushSt st).flushed = bodyLineSum st.flushed + st.buf.length := by
  rw [flushSt_flushed]
  rcases hb : st.buf with _ | ⟨l, ls⟩
  · simp
  · rw [if_neg (by simp), bodyLineSum_append]
    have : bodyLines (joinLinesL st.buf) = st.buf.length := by
      unfold bodyLines
      exact joinLinesL_count st.buf (by rw [hb]; simp) h
    rw [hb] at this
    simp [bodyLineSum, this, hb]

/-- The conservation invariant of the segmentation loop: flushed body lines plus
heading lines seen plus buffered lines equals lines processed; buffered lines carry no
newline. -/
theorem seg_invariant (lines : List (List Char)) :
    ∀ st : SegState, (∀ l ∈ lines, l.count '\n' = 0) → (∀ l ∈ st.buf, l.count '\n' = 0) →
      (bodyLineSum (List.foldl segStep st lines).flushed + headsCount lines +
          (List.foldl segStep st lines).buf.length
        = bodyLineSum st.flushed + st.buf.length + lines.length) ∧
      (∀ l ∈ (List.foldl segStep st lines).buf, l.count '\n' = 0) := by
  induction lines with
  | nil =>
    intro st _ hbuf
    exact ⟨by simp [headsCount], hbuf⟩
  | cons l rest ih =>
    intro st hlines hbuf
    have hl0 : l.count '\n' = 0 := hlines l (List.mem_cons_self _ _)
    have hrest : ∀ x ∈ rest, x.count '\n' = 0 := fun x hx => hlines x (List.mem_cons_of_mem _ hx)
    rw [List.foldl_cons]
    by_cases hl : isHeadingL l = true
    · obtain ⟨hfl, hbf, _⟩ := segStep_heading_fields st l hl
      obtain ⟨h1, h2⟩ := ih (segStep st l) hrest (by rw [hbf]; intro x hx; cases hx)
      refine ⟨?_, h2⟩
      rw [hfl, hbf, bodyLineSum_flushSt st hbuf] at h1
      simp only [List.length_nil] at h1
      have hhc : headsCount (l :: rest) = headsCount rest + 1 := by
        simp [headsCount, List.filter_cons, hl]
      simp only [List.length_cons, hhc]
      omega
    · rw [segStep_nonheading st l (by simpa using hl)]
      have hbuf' : ∀ x ∈ ({ st with buf := st.buf ++ [l] } : SegState).buf, x.count '\n' = 0 := by
        intro x hx
        rcases List.mem_append.1 hx with h | h
        · exact hbuf x h
        · simp only [List.mem_singleton] at h
          subst h
          exact hl0
      obtain ⟨h1, h2⟩ := ih { st with buf := st.buf ++ [l] } hrest hbuf'
      refine ⟨?_, h2⟩
      have hhc : headsCount (l :: rest) = headsCount rest := by
        simp [headsCount, List.filter_cons, hl]
      simp only [List.length_append, List.length_singleton, List.length_cons,
        List.length_nil, hhc] at h1 ⊢
      omega

/-- Unconditional conservation for the flush history: total flushed body lines plus
heading lines equals the total number of input lines. -/
theorem seg_total (lines : List (List Char)) (h : ∀ l ∈ lines, l.count '\n' = 0) :
    bodyLineSum (flushSt (segFold lines)).flushed + headsCount lines = lines.length := by
  obtain ⟨h1, h2⟩ := seg_invariant lines initState h (by intro x hx; cases hx)
  have h3 := bodyLineSum_flushSt (List.foldl segStep initState lines) h2
  have e1 : bodyLineSum initState.flushed = 0 := rfl
  have e2 : initState.buf.length = 0 := rfl
  rw [e1, e2] at h1
  unfold segFold
  omega

/-- The sections dict is the replay of the flush history through `dinsert`. -/
theorem flushSt_secs_dfold (st : SegState) (h : st.secs = dfold st.flushed) :
    (flushSt st).secs = dfold (flushSt st).flushed := by
  unfold flushSt
  split
  · exact h
  · show dinsert st.secs st.cur (joinLinesL st.buf) = dfold (st.flushed ++ [_])
    rw [h]
    unfold dfold
    rw [List.foldl_append]
    rfl

theorem seg_secs_dfold (lines : List (List Char)) :
    ∀ st : SegState, st.secs = dfold st.flushed →
      (List.foldl segStep st lines).secs = dfold (List.foldl segStep st lines).flushed := by
  induction lines with
  | nil => exact fun st h => h
  | cons l rest ih =>
    intro st h
    rw [List.foldl_cons]
    apply ih
    by_cases hl : isHeadingL l = true
    · obtain ⟨hfl, _, hsecs⟩ := segStep_heading_fields st l hl
      rw [hfl, hsecs]
      exact flushSt_secs_dfold st h
    · rw [segStep_nonheading st l (by simpa using hl)]
      exact h

/-- Replaying pairwise-distinct keys through `dinsert` appends them unchanged. -/
theorem dfold_go (fl : Sections) :
    ∀ m : Sections, (((m ++ fl).map Prod.fst).Nodup) →
      fl.foldl (fun acc p => dinsert acc p.1 p.2) m = m ++ fl := by
  induction fl with
  | nil => intro m _; simp
  | cons p rest ih =>
    intro m hnd
    have hnotin : p.1 ∉ m.map Prod.fst := by
      rw [List.map_append] at hnd
      have hd := (List.nodup_append.1 hnd).2.2
      exact fun hmem => hd hmem (by simp)
    have hins : dinsert m p.1 p.2 = m ++ [p] := by
      have hany : (m.any fun q => decide (q.1 = p.1)) = false := by
        rw [List.any_eq_false]
        intro q hq hq1
        exact hnotin (of_decide_eq_true hq1 ▸ List.mem_map_of_mem Prod.fst hq)
      unfold dinsert
      rw [hany]
      rfl
    simp only [List.foldl_cons]
    rw [hins, ih (m ++ [p]) (by simpa using hnd)]
    simp

theorem dfold_of_nodup (fl : Sections) (h : (fl.map Prod.fst).Nodup) : dfold fl = fl := by
  have := dfold_go fl [] (by simpa using h)
  simpa [dfold] using this

/-! ## C1: line conservation in the segmentation pass -/

/-- C1, counterexample: in `dupHeadingText` the two `HEADING` lines normalize to the
same name, the dict overwrite discards the first body, and one input line is lost:
the flushed body lines (1) plus heading lines (2) undercount the 4 input lines. -/
theorem C1_counterexample :
    bodyLineSum (lineSegmentSections dupHeadingText) + numHeadingLines dupHeadingText ≠
      numLines dupHeadingText := by decide

/-- C1 (amended): for every non-empty input with at least one non-heading line and in
which the flushed (name, body) pairs carry pairwise-distinct section names, the sum of
the discovered bodies' line counts plus the number of heading lines equals the total
number of input lines.  (Without the two provisos a duplicated heading name loses its
earlier body to the dict overwrite, and an all-heading input double-counts through the
`full_text` substitution.) -/
theorem C1_line_conservation (text : String) (hne : text ≠ "")
    (hnh : ∃ l ∈ linesOf text, isHeadingL l = false)
    (hnd : ((segRun text).flushed.map Prod.fst).Nodup) :
    bodyLineSum (lineSegmentSections text) + numHeadingLines text = numLines text := by
  have hcount : ∀ l ∈ linesOf text, l.count '\n' = 0 := splitLinesL_no_newline text.data
  have htot := seg_total (linesOf text) hcount
  have hsecs : (segRun text).secs = dfold (segRun text).flushed := by
    unfold segRun segFold
    exact flushSt_secs_dfold _ (seg_secs_dfold (linesOf text) initState rfl)
  have hsecs2 : (segRun text).secs = (segRun text).flushed := by
    rw [hsecs, dfold_of_nodup _ hnd]
  have hheads : headsCount (linesOf text) < (linesOf text).length := by
    obtain ⟨l, hl, hnhl⟩ := hnh
    unfold headsCount
    exact List.length_filter_lt_length_iff_exists.2 ⟨l, hl, by simp [hnhl]⟩
  have hfl_pos : 0 < bodyLineSum (segRun text).flushed := by
    unfold segRun
    omega
  have hfl_ne : (segRun text).flushed ≠ [] := by
    intro h
    rw [h] at hfl_pos
    simp [bodyLineSum] at hfl_pos
  have hsecs_ne : (segRun text).secs ≠ [] := by
    rw [hsecs2]
    exact hfl_ne
  have hlss : lineSegmentSections text = (segRun text).secs := by
    unfold lineSegmentSections segRun segFold
    rw [if_neg (by simpa [List.isEmpty_iff, segmentLines, segRun, segFold, linesOf]
      using hsecs_ne)]
    rfl
  rw [hlss, hsecs2]
  exact htot

/-- C1 witness: the amended statement instantiated on the spec's example input
(5 lines: 2 headings, bodies of 1 and 2 lines, 1 + 2 + 2 = 5). -/
theorem C1_line_conservation_witness :
    bodyLineSum (lineSegmentSections specExampleText) + numHeadingLines specExampleText =
      numLines specExampleText :=
  C1_line_conservation specExampleText (by decide)
    ⟨"We use a load balancer.".data, by decide, by decide⟩ (by decide)

theorem map_fst_structuredRaw (secs : Sections) (fields : List (List Char × List (List Char))) :
    (structuredRaw secs fields).map Prod.fst = fields.map Prod.fst := by
  simp [structuredRaw]

theorem map_fst_applyFallback (text : String) (fields : List (List Char × List (List Char)))
    (st : Sections) (h : st.map Prod.fst = fields.map Prod.fst) :
    (applyFallback text fields st).map Prod.fst = fields.map Prod.fst := by
  unfold applyFallback
  split
  · cases fields with
    | nil => rfl
    | cons f0 rest => simp
  · exact h

/-! ## C7: whole-text fallback when no synonym matches -/

theorem extract_section_eq_nil (secs : Sections) (keys : List (List Char))
    (h : ∀ key ∈ keys, ∀ p ∈ secs, isSubstr key p.1 = false) :
    extract_section secs keys = [] := by
  unfold extract_section
  have hnone : (keys.findSome? fun key =>
      secs.findSome? fun p => if isSubstr key p.1 then some p.2 else none) = none := by
    rw [List.findSome?_eq_none_iff]
    intro key hk
    rw [List.findSome?_eq_none_iff]
    intro p hp
    rw [h key hk p hp]
    rfl
  rw [hnone]
  rfl

/-- C7: whenever no synonym of any canonical field occurs as a substring of any
discovered section name, the mapper assigns the entire raw text to the first canonical
field in schema order and the empty string to every other field, with the discovered
sections attached under the reserved key. -/
theorem C7_whole_text_fallback (text : String) (t : AnalysisType) (hne : text ≠ "")
    (hnm : ∀ fp ∈ canonSchema t, ∀ syn ∈ fp.2, ∀ p ∈ discoveredSections text,
      isSubstr syn p.1 = false) :
    parse_analysis_result text t =
      (match canonSchema t with
       | [] => []
       | f0 :: rest => (f0.1, PyVal.str text.data) :: rest.map fun fp => (fp.1, PyVal.str []))
      ++ [("sections".data, PyVal.dict (discoveredSections text))] := by
  have hraw : structuredRaw (discoveredSections text) (canonSchema t)
      = (canonSchema t).map fun fp => (fp.1, ([] : List Char)) := by
    unfold structuredRaw
    apply List.map_congr_left
    intro fp hfp
    rw [extract_section_eq_nil _ _ (fun syn hs p hp => hnm fp hfp syn hs p hp)]
  have hfb : applyFallback text (canonSchema t)
        (structuredRaw (discoveredSections text) (canonSchema t))
      = match canonSchema t with
        | [] => []
        | f0 :: rest => (f0.1, text.data) :: rest.map fun fp => (fp.1, ([] : List Char)) := by
    unfold applyFallback
    rw [if_pos]
    rw [hraw]
    simp [List.all_eq_true]
  simp only [parse_analysis_result, if_neg hne, hfb]
  rcases hsch : canonSchema t with _ | ⟨f0, rest⟩
  · simp
  · simp [List.map_map, Function.comp]

/-- C7 witness: pure prose with no headings and no keywords under the PRR report type
puts the whole input into the first canonical field, `executive_summary`. -/
theorem C7_whole_text_fallback_witness :
    parse_analysis_result proseText AnalysisType.PRR =
      (match canonSchema AnalysisType.PRR with
       | [] => []
       | f0 :: rest => (f0.1, PyVal.str proseText.data) :: rest.map fun fp => (fp.1, PyVal.str []))
      ++ [("sections".data, PyVal.dict (discoveredSections proseText))] :=
  C7_whole_text_fallback proseText AnalysisType.PRR (by decide) (by decide)

/-! ## C9: heading-name normalization -/

theorem dropWhile_eq_self_of_head (p : Char → Bool) (l : List Char)
    (h : ∀ c, l.head? = some c → p c = false) : l.dropWhile p = l := by
  cases l with
  | nil => rfl
  | cons c t => rw [List.dropWhile_cons_of_neg (by simp [h c rfl])]

theorem pyStrip_eq_self (l : List Char)
    (hh : ∀ c, l.head? = some c → pyWS c = false)
    (hl : ∀ c, l.getLast? = some c → pyWS c = false) : pyStrip l = l := by
  unfold pyStrip
  rw [dropWhile_eq_self_of_head _ _ hh]
  rw [dropWhile_eq_self_of_head _ _ (by
    intro c hc
    rw [List.head?_reverse] at hc
    exact hl c hc)]
  exact List.reverse_reverse l

theorem stripMarkdown_eq_self (l : List Char) (h : ∀ c, l.head? = some c → c ≠ '#') :
    stripMarkdown l = l := by
  unfold stripMarkdown
  rw [if_neg]
  intro hcond
  rw [Bool.and_eq_true] at hcond
  rcases hcond with ⟨h1, _⟩
  unfold headIs headSat at h1
  cases hhd : l.head? with
  | none => rw [hhd] at h1; cases h1
  | some c =>
    rw [hhd] at h1
    exact h c hhd (of_decide_eq_true h1)

theorem stripTrailingColon_eq_self (l : List Char) (h : ∀ c, l.getLast? = some c → c ≠ ':') :
    stripTrailingColon l = l := by
  unfold stripTrailingColon
  rw [if_neg]
  intro hcond
  exact h ':' hcond rfl

/-- On a line without surrounding whitespace, leading markdown marker or trailing
colon, the normalization is exactly: lowercase every character and replace every
individual space by an underscore. -/
theorem sectionName_clean (l : List Char)
    (hh : ∀ c, l.head? = some c → (pyWS c = false ∧ Char.toLower c ≠ '#'))
    (hl : ∀ c, l.getLast? = some c → (pyWS c = false ∧ Char.toLower c ≠ ':')) :
    sectionNameL l = spacesToUnderscores (l.map Char.toLower) := by
  unfold sectionNameL
  rw [pyStrip_eq_self l (fun c hc => (hh c hc).1) (fun c hc => (hl c hc).1)]
  rw [stripMarkdown_eq_self _ (by
    intro c hc
    rw [List.head?_map] at hc
    cases hhd : l.head? with
    | none => rw [hhd] at hc; cases hc
    | some c0 =>
      rw [hhd] at hc
      have hce : Char.toLower c0 = c := by
        rw [show Option.map Char.toLower (some c0) = some (Char.toLower c0) from rfl] at hc
        injection hc
      rw [← hce]
      exact (hh c0 hhd).2)]
  rw [stripTrailingColon_eq_self _ (by
    intro c hc
    rw [List.getLast?_map] at hc
    cases hhd : l.getLast? with
    | none => rw [hhd] at hc; cases hc
    | some c0 =>
      rw [hhd] at hc
      have hce : Char.toLower c0 = c := by
        rw [show Option.map Char.toLower (some c0) = some (Char.toLower c0) from rfl] at hc
        injection hc
      rw [← hce]
      exact (hl c0 hhd).2)]

/-- C9, counterexample: the heading `FOO  BAR` (two spaces) normalizes to `foo__bar`
— one underscore PER space — not to the single-underscore `foo_bar` the claim
requires. -/
theorem C9_counterexample :
    isHeadingL "FOO  BAR".data = true ∧
    sectionNameL "FOO  BAR".data = "foo__bar".data ∧
    "foo__bar".data ≠ "foo_bar".data := by
  refine ⟨by decide, by decide, by decide⟩

/-- C9 (amended): normalization lowercases and replaces each individual space by an
underscore, so a heading whose words are separated by a run of `n ≥ 1` spaces yields
exactly `n` underscores between the words (runs are not collapsed). -/
theorem C9_each_space_underscored (n : Nat) (hn : 1 ≤ n) :
    isHeadingL (spacedHeading n) = true ∧
    sectionNameL (spacedHeading n) = "foo".data ++ List.replicate n '_' ++ "bar".data := by
  have hhead : (spacedHeading n).head? = some 'F' := rfl
  have hlast : (spacedHeading n).getLast? = some 'R' := by
    unfold spacedHeading
    rw [List.getLast?_append_of_ne_nil _ (show "BAR".data ≠ [] by decide)]
    rfl
  have hstrip : pyStrip (spacedHeading n) = spacedHeading n := by
    apply pyStrip_eq_self
    · intro c hc
      rw [hhead] at hc
      cases hc
      decide
    · intro c hc
      rw [hlast] at hc
      cases hc
      decide
  constructor
  · unfold isHeadingL
    rw [hstrip]
    have hcased : (spacedHeading n).any isCasedAscii = true := by
      rw [List.any_eq_true]
      refine ⟨'F', ?_, by decide⟩
      unfold spacedHeading
      rw [show "FOO".data = ['F', 'O', 'O'] from rfl]
      exact List.mem_append_left _ (List.mem_append_left _ (List.mem_cons_self _ _))
    have hlow : (spacedHeading n).any isLowerAscii = false := by
      rw [List.any_eq_false]
      intro c hc
      unfold spacedHeading at hc
      rw [show "FOO".data = ['F', 'O', 'O'] from rfl,
        show "BAR".data = ['B', 'A', 'R'] from rfl] at hc
      rcases List.mem_append.1 hc with hc | hc
      · rcases List.mem_append.1 hc with hc | hc
        · simp only [List.mem_cons, List.not_mem_nil, or_false] at hc
          rcases hc with h | h | h <;> subst h <;> decide
        · rw [List.eq_of_mem_replicate hc]
          decide
      · simp only [List.mem_cons, List.not_mem_nil, or_false] at hc
        rcases hc with h | h | h <;> subst h <;> decide
    have hupper : pyIsUpper (spacedHeading n) = true := by
      unfold pyIsUpper
      rw [hcased, hlow]
      rfl
    have hlen : decide (3 < (spacedHeading n).length) = true := by
      rw [decide_eq_true_eq]
      unfold spacedHeading
      rw [List.length_append, List.length_append, List.length_replicate,
        show "FOO".data.length = 3 from rfl, show "BAR".data.length = 3 from rfl]
      omega
    rw [hupper, hlen]
    simp
  · rw [sectionName_clean (spacedHeading n)
      (by intro c hc; rw [hhead] at hc; cases hc; exact ⟨by decide, by decide⟩)
      (by intro c hc; rw [hlast] at hc; cases hc; exact ⟨by decide, by decide⟩)]
    unfold spacedHeading spacesToUnderscores
    simp only [List.map_append, List.map_replicate]
    rfl

/-- C9 witness: the amended statement at `n = 2`: two spaces yield two underscores. -/
theorem C9_each_space_underscored_witness :
    sectionNameL (spacedHeading 2) = "foo".data ++ List.replicate 2 '_' ++ "bar".data :=
  (C9_each_space_underscored 2 (by decide)).2

/-! ## C2: key set of the returned mapping -/

/-- C2, counterexample: on the empty string the code returns early with the
single-entry `{"text": ...}` mapping, so the keys are not the canonical fields plus
the reserved entry. -/
theorem C2_counterexample :
    (parse_analysis_result "" AnalysisType.PRR).map Prod.fst ≠
      canonicalFields AnalysisType.PRR ++ ["sections".data] := by decide

/-- C2 (amended): for every report type and every NON-empty input text, the mapping
returned by `parse_analysis_result` has as keys exactly the canonical fields declared
for that report type, in order, plus the reserved `sections` entry at the end, and
every canonical field is mapped to a string value. -/
theorem C2_keys_exact (t : AnalysisType) (text : String) (hne : text ≠ "") :
    (parse_analysis_result text t).map Prod.fst = canonicalFields t ++ ["sections".data] ∧
    ∀ p ∈ parse_analysis_result text t, p.1 = "sections".data ∨ ∃ s, p.2 = PyVal.str s := by
  unfold parse_analysis_result
  rw [if_neg hne]
  constructor
  · rw [List.map_append, List.map_map]
    have h := map_fst_applyFallback text (canonSchema t)
      (structuredRaw (discoveredSections text) (canonSchema t))
      (map_fst_structuredRaw _ _)
    simp only [Function.comp] at *
    rw [show ((fun p : List Char × PyVal => p.1) ∘ fun p : List Char × List Char =>
        (p.1, PyVal.str p.2)) = fun p : List Char × List Char => p.1 from rfl] at *
    simpa [canonicalFields] using h
  · intro p hp
    rcases List.mem_append.1 hp with h | h
    · rcases List.mem_map.1 h with ⟨q, _, rfl⟩
      exact Or.inr ⟨q.2, rfl⟩
    · simp only [List.mem_singleton] at h
      subst h
      exact Or.inl rfl

/-- C2 witness: the amended statement instantiated at a concrete non-empty input. -/
theorem C2_keys_exact_witness :
    (parse_analysis_result proseText AnalysisType.PRR).map Prod.fst =
      canonicalFields AnalysisType.PRR ++ ["sections".data] :=
  (C2_keys_exact AnalysisType.PRR proseText (by decide)).1

/-! ## C3: behavior on the empty string -/

/-- C3, counterexample: on the empty string the result has neither a `sections` entry
nor any canonical field (here `executive_summary`), contradicting the claim. -/
theorem C3_counterexample :
    (parse_analysis_result "" AnalysisType.PRR).lookup "sections".data = none ∧
    (parse_analysis_result "" AnalysisType.PRR).lookup "executive_summary".data = none := by
  decide

/-- C3 (amended): for every report type, the empty string short-circuits (source lines
674-675) to the single-entry mapping `{"text": "No analysis data available"}`, with no
canonical fields and no `sections` entry. -/
theorem C3_empty_input (t : AnalysisType) :
    parse_analysis_result "" t = [("text".data, PyVal.str "No analysis data available".data)] := by
  cases t <;> rfl

/-! ## C4: the only failure is an unrecognized report type -/

/-- C4: the pipeline fails exactly on an unrecognized report-type tag — the dispatch
precedes parsing, and under any recognized tag `parse_analysis_result` is total on
every input text, the empty string included. -/
theorem C4_fail_iff_unrecognized (text : String) (tag : String) :
    (extractionPipeline text tag).isOk = recognizedTags.contains tag ∧
    (recognizedTags.contains tag = false →
      extractionPipeline text tag = .error ("Unsupported analysis type: " ++ tag)) := by
  unfold extractionPipeline parseAnalysisTag recognizedTags
  by_cases h1 : tag = "system_analysis"
  · subst h1; exact ⟨rfl, by intro h; cases h⟩
  · by_cases h2 : tag = "destructive_testing"
    · subst h2; exact ⟨rfl, by intro h; cases h⟩
    · by_cases h3 : tag = "prr"
      · subst h3; exact ⟨rfl, by intro h; cases h⟩
      · simp [h1, h2, h3, Except.isOk, Except.toBool, List.contains]

/-- C4 witness: a recognized tag succeeds on arbitrary (even empty) text; an
unrecognized tag fails fast with the unsupported-type error. -/
theorem C4_fail_iff_unrecognized_witness :
    (extractionPipeline "" "prr").isOk = true ∧
    extractionPipeline "no matter" "bogus" = .error "Unsupported analysis type: bogus" := by
  constructor
  · rw [(C4_fail_iff_unrecognized "" "prr").1]; decide
  · rw [(C4_fail_iff_unrecognized "no matter" "bogus").2 (by decide)]
    rfl

/-! ## C6: the keyword-anchoring example -/

/-- C6, counterexample: on the spec's example input the final `hypothesis_generation`
field is the EMPTY string (the keyword sections carry empty bodies, so the whole-text
fallback fires instead), contradicting the claimed non-emptiness. -/
theorem C6_counterexample :
    (parse_analysis_result keywordExampleText AnalysisType.DESTRUCTIVE_TESTING).lookup
      "hypothesis_generation".data = some (PyVal.str []) := by decide

/-- C6 (amended): on the example input the line segmenter yields exactly one section
and the keyword fallback is triggered, but its sections (`dependency`, `hypothesis`)
have empty bodies — each keyword line is immediately followed by the next keyword
match — so every synonym-mapped field is empty, the whole-text fallback fires,
`dependency_analysis` receives the entire raw text and `hypothesis_generation` stays
empty. -/
theorem C6_keyword_example :
    (lineSegmentSections keywordExampleText).length = 1 ∧
    discoveredSections keywordExampleText =
      [("dependency".data, []), ("hypothesis".data, [])] ∧
    (parse_analysis_result keywordExampleText AnalysisType.DESTRUCTIVE_TESTING).lookup
      "dependency_analysis".data = some (PyVal.str keywordExampleText.data) ∧
    (parse_analysis_result keywordExampleText AnalysisType.DESTRUCTIVE_TESTING).lookup
      "hypothesis_generation".data = some (PyVal.str "".data) := by
  refine ⟨by decide, by decide, by decide, by decide⟩

/-! ## C5: where keyword occurrences yield sections -/

/-- After inserting key `k`, the dict has key `k`. -/
theorem dinsert_any_self (m : Sections) (k v : List Char) :
    ((dinsert m k v).any fun p => p.1 = k) = true := by
  unfold dinsert
  split
  · next h =>
    rw [List.any_eq_true] at h ⊢
    obtain ⟨p, hp, hpk⟩ := h
    refine ⟨(k, v), List.mem_map.2 ⟨p, hp, ?_⟩, by simp⟩
    rw [if_pos (of_decide_eq_true hpk)]
  · rw [List.any_eq_true]
    exact ⟨(k, v), List.mem_append_right _ (List.mem_singleton.2 rfl), by simp⟩

/-- `dinsert` never removes a key. -/
theorem dinsert_any_mono (m : Sections) (k k' v' : List Char)
    (h : (m.any fun p => p.1 = k) = true) :
    ((dinsert m k' v').any fun p => p.1 = k) = true := by
  by_cases hkk : k' = k
  · subst hkk
    exact dinsert_any_self m k' v'
  · unfold dinsert
    split
    · rw [List.any_eq_true] at h ⊢
      obtain ⟨p, hp, hpk⟩ := h
      have hpk' : p.1 ≠ k' := fun hq => hkk (hq.symm.trans (of_decide_eq_true hpk))
      exact ⟨p, List.mem_map.2 ⟨p, hp, by rw [if_neg hpk']⟩, hpk⟩
    · rw [List.any_append, h, Bool.true_or]

/-- The inner loop over one keyword's matches preserves existing keys. -/
theorem any_key_inner (cs kw : List Char) (ms : List (Nat × Nat)) (k : List Char) :
    ∀ s : Sections, (s.any fun p => p.1 = k) = true →
      ((ms.foldl (fun secs m =>
          dinsert secs (keywordKey kw) (sliceStrip cs m.2 (nextKeywordStart cs m.2))) s).any
        fun p => p.1 = k) = true := by
  induction ms with
  | nil => exact fun s h => h
  | cons m rest ih =>
    intro s h
    exact ih _ (dinsert_any_mono _ _ _ _ h)

/-- The inner loop over a non-empty match list establishes the keyword's key. -/
theorem any_key_inner_self (cs kw : List Char) (ms : List (Nat × Nat)) (s : Sections)
    (hne : ms ≠ []) :
    ((ms.foldl (fun secs m =>
        dinsert secs (keywordKey kw) (sliceStrip cs m.2 (nextKeywordStart cs m.2))) s).any
      fun p => p.1 = keywordKey kw) = true := by
  rcases ms with _ | ⟨m, rest⟩
  · exact absurd rfl hne
  · exact any_key_inner cs kw rest _ _ (dinsert_any_self _ _ _)

/-- The outer loop over the remaining keywords preserves existing keys. -/
theorem any_key_outer (cs : List Char) (kws : List (List Char)) (k : List Char) :
    ∀ s : Sections, (s.any fun p => p.1 = k) = true →
      ((kws.foldl (fun secs kw =>
          (finditer kw cs).foldl (fun secs m =>
            dinsert secs (keywordKey kw) (sliceStrip cs m.2 (nextKeywordStart cs m.2))) secs) s).any
        fun p => p.1 = k) = true := by
  induction kws with
  | nil => exact fun s h => h
  | cons kw rest ih =>
    intro s h
    exact ih _ (any_key_inner cs kw _ k s h)

/-- C5 (amended): a vocabulary keyword that matches ANYWHERE in the text — at any
position, mid-line included, case-insensitively, with a newline somewhere after it —
always contributes a section under its normalized key.  Line starts play no role: the
keyword regex is unanchored. -/
theorem C5_keyword_anywhere (text : String) (kw : List Char) (hkw : kw ∈ all_keywords)
    (hmatch : ∃ s e, searchKw kw text.data 0 = some (s, e)) :
    ((extract_sections_from_content text.data).any fun p => p.1 = keywordKey kw) = true := by
  obtain ⟨s0, e0, hse⟩ := hmatch
  obtain ⟨pre, post, heq⟩ := List.append_of_mem hkw
  have hfind : finditer kw text.data =
      (s0, e0) :: finditerAux kw text.data text.data.length e0 := by
    show finditerAux kw text.data (text.data.length + 1) 0 = _
    rw [finditerAux, hse]
  unfold extract_sections_from_content
  rw [heq, List.foldl_append, List.foldl_cons]
  apply any_key_outer
  rw [hfind]
  exact any_key_inner_self _ _ _ _ (by simp)

/-- C5 witness: the amended statement at the mid-line occurrence of `architecture` in
`midlineText` (match at position 3, i.e. not at a line start). -/
theorem C5_keyword_anywhere_witness :
    ((extract_sections_from_content midlineText.data).any
      fun p => p.1 = keywordKey "architecture".data) = true :=
  C5_keyword_anywhere midlineText "architecture".data (by decide) ⟨3, 22, by decide⟩

/-! ## C8 and C10: last-write-wins on duplicated section names -/

/-- Folding non-heading lines only accumulates them in the buffer. -/
theorem segFold_nonheading (b : List (List Char)) :
    ∀ st : SegState, (∀ l ∈ b, isHeadingL l = false) →
      b.foldl segStep st = { st with buf := st.buf ++ b } := by
  induction b with
  | nil => intro st _; simp
  | cons l rest ih =>
    intro st hb
    rw [List.foldl_cons, segStep_nonheading st l (hb l (List.mem_cons_self _ _)),
      ih _ (fun x hx => hb x (List.mem_cons_of_mem _ hx))]
    simp

/-- A heading step (with a non-empty normalized name) flushes and retargets. -/
theorem segStep_heading (st : SegState) (line : List Char) (hl : isHeadingL line = true)
    (hnm : sectionNameL line ≠ []) :
    segStep st line = { flushSt st with cur := sectionNameL line } := by
  have h2 : (sectionNameL line).isEmpty = false := by
    simpa [List.isEmpty_iff] using hnm
  simp [segStep, hl, h2]

/-- Folding a heading followed by its body lines: the previous buffer is flushed, the
current name becomes the heading's, and the body sits in the buffer. -/
theorem seg_block (st : SegState) (hd : List Char) (b : List (List Char))
    (hhd : isHeadingL hd = true) (hnm : sectionNameL hd ≠ [])
    (hb : ∀ l ∈ b, isHeadingL l = false) :
    List.foldl segStep st ([hd] ++ b) =
      { secs := (flushSt st).secs, cur := sectionNameL hd, buf := b,
        flushed := (flushSt st).flushed } := by
  rw [List.singleton_append, List.foldl_cons, segStep_heading st hd hhd hnm,
    segFold_nonheading b _ hb]
  rw [show ({ flushSt st with cur := sectionNameL hd } : SegState).buf = [] from
    flushSt_buf_nil st]
  rfl

theorem lookup_map_overwrite (m : Sections) (k v : List Char) :
    ((m.map fun p => if p.1 = k then (k, v) else p).lookup k) =
      if (m.any fun p => p.1 = k) then some v else none := by
  induction m with
  | nil => rfl
  | cons p t ih =>
    obtain ⟨pk, pv⟩ := p
    by_cases h : pk = k
    · subst h
      simp
    · have hbk : (k == pk) = false := beq_eq_false_iff_ne.2 (fun hq => h hq.symm)
      simp [List.lookup_cons, h, hbk, ih]
      rw [show (decide (pk = k) || t.any fun p => decide (p.1 = k)) =
        (t.any fun p => decide (p.1 = k)) from by simp [h]]

theorem lookup_append_self (m : Sections) (k v : List Char)
    (h : (m.any fun p => p.1 = k) = false) :
    ((m ++ [(k, v)]).lookup k) = some v := by
  induction m with
  | nil => simp
  | cons p t ih =>
    obtain ⟨pk, pv⟩ := p
    rw [List.any_cons] at h
    have h1 : ¬pk = k := by
      intro hq
      rw [hq] at h
      simp at h
    have h2 : (t.any fun p => p.1 = k) = false := by
      rcases Bool.or_eq_false_iff.1 h with ⟨_, h2⟩
      exact h2
    have hbk : (k == pk) = false := beq_eq_false_iff_ne.2 (fun hq => h1 hq.symm)
    rw [List.cons_append, List.lookup_cons]
    simp only [hbk]
    exact ih h2

/-- Looking up the key just written always returns the value just written. -/
theorem lookup_dinsert_self (m : Sections) (k v : List Char) :
    ((dinsert m k v).lookup k) = some v := by
  unfold dinsert
  split
  · next h => rw [lookup_map_overwrite, if_pos h]
  · next h =>
    apply lookup_append_self
    rw [List.any_eq_false]
    intro p hp hpk
    exact h (List.any_eq_true.2 ⟨p, hp, hpk⟩)

/-- C8: for any text of the shape (non-heading preamble, heading, non-empty body,
same heading again, different non-empty body), the discovered mapping holds the SECOND
body under the heading's normalized name; the first body is no longer under it. -/
theorem C8_last_write_wins (pre b1 b2 : List (List Char)) (hd : List Char)
    (hpre : ∀ l ∈ pre, isHeadingL l = false)
    (hb1 : ∀ l ∈ b1, isHeadingL l = false) (hb1ne : b1 ≠ [])
    (hb2 : ∀ l ∈ b2, isHeadingL l = false) (hb2ne : b2 ≠ [])
    (hhd : isHeadingL hd = true) (hnm : sectionNameL hd ≠ [])
    (hdiff : joinLinesL b1 ≠ joinLinesL b2) :
    ((segmentLines (pre ++ [hd] ++ b1 ++ [hd] ++ b2)).lookup (sectionNameL hd)
        = some (joinLinesL b2)) ∧
    ((segmentLines (pre ++ [hd] ++ b1 ++ [hd] ++ b2)).lookup (sectionNameL hd)
        ≠ some (joinLinesL b1)) := by
  have heq : pre ++ [hd] ++ b1 ++ [hd] ++ b2 = pre ++ (([hd] ++ b1) ++ ([hd] ++ b2)) := by
    simp [List.append_assoc]
  have hkey : segmentLines (pre ++ [hd] ++ b1 ++ [hd] ++ b2) =
      dinsert (dinsert (flushSt { initState with buf := pre }).secs
        (sectionNameL hd) (joinLinesL b1)) (sectionNameL hd) (joinLinesL b2) := by
    unfold segmentLines segFold
    rw [heq, List.foldl_append, List.foldl_append,
      segFold_nonheading pre initState hpre]
    rw [seg_block _ hd b1 hhd hnm hb1, seg_block _ hd b2 hhd hnm hb2]
    rw [flushSt_secs_of_ne _ (by simpa using hb2ne)]
    rw [flushSt_secs_of_ne _ (by simpa using hb1ne)]
    rfl
  rw [hkey, lookup_dinsert_self]
  exact ⟨rfl, fun h => hdiff (by injection h with h'; exact h'.symm)⟩

/-- C8 witness: the schematic statement at the concrete duplicated-heading input. -/
theorem C8_last_write_wins_witness :
    ((segmentLines ([] ++ ["HEADING".data] ++ ["body one".data] ++ ["HEADING".data] ++
        ["body two".data])).lookup (sectionNameL "HEADING".data)
      = some (joinLinesL ["body two".data])) :=
  (C8_last_write_wins [] ["body one".data] ["body two".data] "HEADING".data
    (by decide) (by decide) (by decide) (by decide) (by decide) (by decide) (by decide)
    (by decide)).1

/-- C10: for any text of the shape (non-empty non-heading preamble, a heading
normalizing to `overview`, non-empty non-heading body), the preamble body stored under
the default name `overview` is overwritten by the heading's body, and (when the two
texts differ) the preamble text survives in no body of the discovered mapping. -/
theorem C10_overview_not_reserved (pre b : List (List Char)) (hd : List Char)
    (hpre : ∀ l ∈ pre, isHeadingL l = false) (hprene : pre ≠ [])
    (hb : ∀ l ∈ b, isHeadingL l = false) (hbne : b ≠ [])
    (hhd : isHeadingL hd = true) (hnm : sectionNameL hd = "overview".data)
    (hdiff : joinLinesL pre ≠ joinLinesL b) :
    segmentLines (pre ++ [hd] ++ b) = [("overview".data, joinLinesL b)] ∧
    ∀ p ∈ segmentLines (pre ++ [hd] ++ b), p.2 ≠ joinLinesL pre := by
  have hkey : segmentLines (pre ++ [hd] ++ b) = [("overview".data, joinLinesL b)] := by
    unfold segmentLines segFold
    rw [List.append_assoc, List.foldl_append, segFold_nonheading pre initState hpre]
    rw [seg_block _ hd b hhd (by rw [hnm]; decide) hb]
    rw [flushSt_secs_of_ne _ (by simpa using hbne)]
    rw [flushSt_secs_of_ne _ (by simpa [initState] using hprene)]
    show dinsert (dinsert initState.secs initState.cur (joinLinesL pre))
      (sectionNameL hd) (joinLinesL b) = _
    rw [hnm]
    show dinsert [("overview".data, joinLinesL pre)] "overview".data (joinLinesL b) = _
    unfold dinsert
    rw [if_pos (by simp)]
    simp
  refine ⟨hkey, ?_⟩
  intro p hp
  rw [hkey, List.mem_singleton] at hp
  subst hp
  exact fun h => hdiff h.symm

/-- C10 witness: the schematic statement at a concrete input whose preamble is
overwritten by a later `OVERVIEW` heading's body. -/
theorem C10_overview_not_reserved_witness :
    segmentLines (["preamble text".data] ++ ["OVERVIEW".data] ++ ["the real body".data]) =
      [("overview".data, joinLinesL ["the real body".data])] :=
  (C10_overview_not_reserved ["preamble text".data] ["the real body".data] "OVERVIEW".data
    (by decide) (by decide) (by decide) (by decide) (by decide) (by decide) (by decide)).1

/-! ## C5, counterexample part -/

/-- C5, counterexample: in `midlineText` no line starts (even case-insensitively) with
the vocabulary keyword `architecture`, yet its mid-line occurrence produces a section
— the keyword regex is not anchored to line starts. -/
theorem C5_counterexample :
    (splitLinesL midlineText.data).all
      (fun l => !("architecture".data.isPrefixOf (l.map Char.toLower))) = true ∧
    extract_sections_from_content midlineText.data =
      [("architecture".data, "rest here".data)] := by
  refine ⟨by decide, by decide⟩

end PRR
